import Mathlib

/-!
Verification development for a repository of instructional PyTorch notebooks.
The repository's own code consists of notebook cells: tensor construction and
editing (`add`, `add_`, `resize_`), a small autograd demonstration, a training
loop, and checkpoint saving/loading (`checkpoint` dict, `load_checkpoint`).
The fully-connected network class `fc_model.Network` and the framework calls
`torch.save` / `torch.load` / `Module.load_state_dict` are not shipped under
`src/`; they are modelled below from the specification's words, anchored by the
architecture printouts and the error trace recorded in the notebook outputs.

Tensor values are modelled as exact rationals: the claims under study are about
shapes, element counts, copying versus in-place mutation, and value-preserving
round-trips, none of which depend on floating-point rounding.
-/

/-- A multi-dimensional numeric array: a shape and a flat row-major data list
(the demonstrated framework's basic data unit). -/
structure Tensor where
  shape : List Nat
  data : List ℚ
deriving DecidableEq, Repr

/-- Well-formedness: the flat data holds exactly one element per coordinate of
the shape. -/
def Tensor.wf (t : Tensor) : Prop :=
  t.data.length = t.shape.prod

instance (t : Tensor) : Decidable t.wf := by
  unfold Tensor.wf; infer_instance

/-- A tensor of the given shape filled with zeros (stands for any freshly
initialised parameter tensor; the claims never depend on the initial values). -/
def zerosTensor (sh : List Nat) : Tensor :=
  ⟨sh, List.replicate sh.prod 0⟩

/-- Out-of-place scalar addition `z.add(c)`: builds a new tensor whose every
element is the corresponding element of `z` plus `c`. -/
def Tensor.add (t : Tensor) (c : ℚ) : Tensor :=
  ⟨t.shape, t.data.map (fun v => v + c)⟩

/-- Elementwise square, the value computed by the notebook's `y = x**2`. -/
def Tensor.square (t : Tensor) : Tensor :=
  ⟨t.shape, t.data.map (fun v => v * v)⟩

/-- Mean of all elements, the value computed by the notebook's `z = y.mean()`. -/
def Tensor.mean (t : Tensor) : ℚ :=
  t.data.sum / (t.data.length : ℚ)

/-- In-place reshape `t.resize_(sh)`: the underlying storage is reinterpreted
at the new shape; surplus elements are dropped and, when the new shape needs
more elements than are stored, the extra storage is uninitialised (modelled
here as zeros — the claims only speak about the preserved prefix and counts). -/
def Tensor.resize_ (t : Tensor) (sh : List Nat) : Tensor :=
  ⟨sh, t.data.take sh.prod ++ List.replicate (sh.prod - t.data.length) 0⟩

/-- The notebook-cell environment for the tensor-editing cells: the sole
variable the edited tensor is bound to (`z` in the source). -/
structure Env where
  z : Tensor
deriving DecidableEq, Repr

/-- The cell `z.add(1)` (with a general scalar `c`): displays a fresh tensor
and leaves the environment untouched. -/
def runAdd (e : Env) (c : ℚ) : Tensor × Env :=
  (e.z.add c, e)

/-- The cell `z.add_(1)` (with a general scalar `c`): displays the result and
rebinds `z` to it — the in-place edit. -/
def runAddInPlace (e : Env) (c : ℚ) : Tensor × Env :=
  (e.z.add c, { e with z := e.z.add c })

/-- Modelled from the spec: `fc_model.py` (the repository file defining the
fully-connected network class) is not under `src/`; a fully-connected layer
`nn.Linear(in_features, out_features)` as shown in the notebook's printed
architecture, holding a weight of shape `[out_features, in_features]` and a
bias of shape `[out_features]`. -/
structure Linear where
  in_features : Nat
  out_features : Nat
  weight : Tensor
  bias : Tensor
deriving DecidableEq, Repr

/-- A layer whose parameter tensors have exactly the shapes its declared
dimensions announce. -/
def Linear.wf (l : Linear) : Prop :=
  l.weight.shape = [l.out_features, l.in_features] ∧
  l.weight.data.length = l.out_features * l.in_features ∧
  l.bias.shape = [l.out_features] ∧
  l.bias.data.length = l.out_features

instance (l : Linear) : Decidable l.wf := by
  unfold Linear.wf; infer_instance

/-- Modelled from the spec: `fc_model.Network` (not under `src/`), per the
notebook's printout — a `ModuleList` of hidden `Linear` layers followed by an
output `Linear` layer. -/
structure Network where
  hidden_layers : List Linear
  output : Linear
deriving DecidableEq, Repr

/-- A fresh `Linear i o` with canonically shaped (zero-initialised) parameters. -/
def mkLinear (i o : Nat) : Linear :=
  ⟨i, o, zerosTensor [o, i], zerosTensor [o]⟩

/-- The chain of hidden layers: the first consumes the input size, each
subsequent layer consumes its predecessor's width. -/
def mkHidden (i : Nat) : List Nat → List Linear
  | [] => []
  | h :: t => mkLinear i h :: mkHidden h t

/-- The width feeding the output layer: the last hidden width, or the input
size when there are no hidden layers. -/
def lastSize (i : Nat) : List Nat → Nat
  | [] => i
  | h :: t => lastSize h t

/-- Modelled from the spec: the constructor `fc_model.Network(input_size,
output_size, hidden_layers)` (not under `src/`), building the architecture the
notebook prints for those arguments. -/
def Network.create (i o : Nat) (hs : List Nat) : Network :=
  ⟨mkHidden i hs, mkLinear (lastSize i hs) o⟩

/-- The network's declared input dimensionality, read off the first layer. -/
def Network.input_size (n : Network) : Nat :=
  match n.hidden_layers with
  | [] => n.output.in_features
  | l :: _ => l.in_features

/-- The hidden-layer widths in layer order, one per layer, each the layer's
`out_features` (the notebook's `[each.out_features for each in
model.hidden_layers]`). -/
def Network.hidden_sizes (n : Network) : List Nat :=
  n.hidden_layers.map Linear.out_features

/-- The network's output dimensionality. -/
def Network.output_size (n : Network) : Nat :=
  n.output.out_features

/-- The architecture description of a network: input size, hidden widths,
output size. -/
def Network.dims (n : Network) : Nat × List Nat × Nat :=
  (n.input_size, n.hidden_sizes, n.output_size)

/-- The in-size/out-size chain condition on consecutive layers. -/
def chain (i : Nat) : List Linear → Prop
  | [] => True
  | l :: ls => l.in_features = i ∧ chain l.out_features ls

instance : ∀ (i : Nat) (ls : List Linear), Decidable (chain i ls)
  | _, [] => .isTrue trivial
  | _, l :: ls =>
    have : Decidable (chain l.out_features ls) := instDecidableChain l.out_features ls
    instDecidableAnd

/-- A network as constructed by `fc_model.Network` and preserved by training:
consecutive layers agree on their interface sizes and every parameter tensor
has the shape its layer declares. -/
def Network.wf (n : Network) : Prop :=
  chain n.input_size n.hidden_layers ∧
  n.output.in_features = lastSize n.input_size n.hidden_sizes ∧
  (∀ l ∈ n.hidden_layers, l.wf) ∧ n.output.wf

instance (n : Network) : Decidable n.wf := by
  unfold Network.wf; infer_instance

/-- The named parameter tensors of the hidden layers, keyed
`hidden_layers.{idx}.weight` / `hidden_layers.{idx}.bias` as the notebook's
printed `state_dict` keys show. -/
def namedParams : Nat → List Linear → List (String × Tensor)
  | _, [] => []
  | idx, l :: ls =>
    ("hidden_layers." ++ toString idx ++ ".weight", l.weight) ::
    ("hidden_layers." ++ toString idx ++ ".bias", l.bias) :: namedParams (idx + 1) ls

/-- The model's `state_dict`: the mapping from parameter-tensor names to
tensors, in the canonical order the notebook prints. -/
def Network.state_dict (n : Network) : List (String × Tensor) :=
  namedParams 0 n.hidden_layers ++
  [("output.weight", n.output.weight), ("output.bias", n.output.bias)]

/-- The name-and-shape signature of a parameter mapping — exactly what
`load_state_dict` compares between checkpoint and current model. -/
def sdShapes (sd : List (String × Tensor)) : List (String × List Nat) :=
  sd.map (fun e => (e.1, e.2.shape))

/-- Copy the parameter tensors of a serialized mapping into the layer list,
two entries (weight then bias) per layer; layer dimensions are untouched. -/
def setHidden : List Linear → List (String × Tensor) → List Linear
  | l :: ls, w :: b :: rest => { l with weight := w.2, bias := b.2 } :: setHidden ls rest
  | ls, _ => ls

/-- Install a serialized parameter mapping into a network, positionally along
the canonical `state_dict` order. -/
def Network.setParams (n : Network) (sd : List (String × Tensor)) : Network :=
  { hidden_layers := setHidden n.hidden_layers sd,
    output :=
      match sd.drop (2 * n.hidden_layers.length) with
      | w :: b :: _ => { n.output with weight := w.2, bias := b.2 }
      | _ => n.output }

/-- Modelled from the spec: `Module.load_state_dict` (framework code, not under
`src/`). The architecture description must exactly match the names and shapes
recorded in the parameter mapping; on a match the parameters are copied in, on
any mismatch a `RuntimeError` (the notebook's recorded size-mismatch trace) is
raised to the caller with no recovery attempted. -/
def Network.load_state_dict (n : Network) (sd : List (String × Tensor)) :
    Except String Network :=
  if sdShapes sd = sdShapes n.state_dict then .ok (n.setParams sd)
  else .error "RuntimeError: Error(s) in loading state_dict for Network: size mismatch"

/-- A token of the serialized byte stream: the framework's native format is an
opaque blob; here it is a flat token list with string, natural and rational
payloads. -/
inductive Tok where
  | tstr : String → Tok
  | tnat : Nat → Tok
  | trat : ℚ → Tok
deriving DecidableEq, Repr

/-- Length-prefixed encoding of a list of naturals. -/
def encNats (l : List Nat) : List Tok :=
  Tok.tnat l.length :: l.map Tok.tnat

/-- Length-prefixed encoding of a list of rationals. -/
def encRats (l : List ℚ) : List Tok :=
  Tok.tnat l.length :: l.map Tok.trat

/-- Encoding of one tensor: its shape then its data. -/
def encTensor (t : Tensor) : List Tok :=
  encNats t.shape ++ encRats t.data

/-- Encoding of one named entry of a parameter mapping. -/
def encEntry (e : String × Tensor) : List Tok :=
  Tok.tstr e.1 :: encTensor e.2

/-- Modelled from the spec: `torch.save` applied to a `state_dict` (framework
code, not under `src/`) — writes the mapping to a serialized blob. -/
def torchSaveSD (sd : List (String × Tensor)) : List Tok :=
  Tok.tnat sd.length :: (sd.map encEntry).flatten

/-- Decode a counted run of natural-number tokens. -/
def decNats : Nat → List Tok → Option (List Nat × List Tok)
  | 0, ts => some ([], ts)
  | k + 1, Tok.tnat x :: ts =>
    (decNats k ts).map (fun p => (x :: p.1, p.2))
  | _ + 1, _ => none

/-- Decode a counted run of rational tokens. -/
def decRats : Nat → List Tok → Option (List ℚ × List Tok)
  | 0, ts => some ([], ts)
  | k + 1, Tok.trat x :: ts =>
    (decRats k ts).map (fun p => (x :: p.1, p.2))
  | _ + 1, _ => none

/-- Decode one tensor. -/
def decTensor : List Tok → Option (Tensor × List Tok)
  | Tok.tnat k :: ts => do
    let (sh, ts1) ← decNats k ts
    match ts1 with
    | Tok.tnat m :: ts2 => do
      let (da, ts3) ← decRats m ts2
      some (⟨sh, da⟩, ts3)
    | _ => none
  | _ => none

/-- Decode a counted run of named tensor entries. -/
def decEntries : Nat → List Tok → Option (List (String × Tensor) × List Tok)
  | 0, ts => some ([], ts)
  | k + 1, Tok.tstr s :: ts => do
    let (t, ts1) ← decTensor ts
    let (rest, ts2) ← decEntries k ts1
    some ((s, t) :: rest, ts2)
  | _ + 1, _ => none

/-- Modelled from the spec: `torch.load` applied to a blob that holds a
`state_dict` (framework code, not under `src/`) — reads the mapping back. -/
def torchLoadSD (ts : List Tok) : Option (List (String × Tensor)) :=
  match ts with
  | Tok.tnat k :: ts1 =>
    (decEntries k ts1).bind (fun p => if p.2 = [] then some p.1 else none)
  | _ => none

/-- A value stored in the checkpoint record: a dimension, the list of hidden
widths, or the nested parameter mapping. -/
inductive CkptVal where
  | num : Nat → CkptVal
  | widths : List Nat → CkptVal
  | sdict : List (String × Tensor) → CkptVal
deriving DecidableEq, Repr

/-- The checkpoint record the notebook builds before `torch.save(checkpoint,
'checkpoint.pth')`: a mapping with the four entries `input_size`,
`output_size`, `hidden_layers` (one width per hidden layer, each that layer's
`out_features`) and `state_dict`. -/
def mkCheckpoint (n : Network) : List (String × CkptVal) :=
  [("input_size", CkptVal.num n.input_size),
   ("output_size", CkptVal.num n.output_size),
   ("hidden_layers", CkptVal.widths (n.hidden_layers.map Linear.out_features)),
   ("state_dict", CkptVal.sdict n.state_dict)]

/-- Encoding of one checkpoint value, tagged by kind. -/
def encVal : CkptVal → List Tok
  | CkptVal.num x => [Tok.tnat 0, Tok.tnat x]
  | CkptVal.widths l => Tok.tnat 1 :: encNats l
  | CkptVal.sdict sd => Tok.tnat 2 :: torchSaveSD sd

/-- Modelled from the spec: `torch.save` applied to the checkpoint record
(framework code, not under `src/`). -/
def torchSaveCkpt (c : List (String × CkptVal)) : List Tok :=
  Tok.tnat c.length :: (c.map (fun e => Tok.tstr e.1 :: encVal e.2)).flatten

/-- Decode one tagged checkpoint value. -/
def decVal : List Tok → Option (CkptVal × List Tok)
  | Tok.tnat 0 :: Tok.tnat x :: ts => some (CkptVal.num x, ts)
  | Tok.tnat 1 :: Tok.tnat k :: ts =>
    (decNats k ts).map (fun p => (CkptVal.widths p.1, p.2))
  | Tok.tnat 2 :: Tok.tnat k :: ts =>
    (decEntries k ts).map (fun p => (CkptVal.sdict p.1, p.2))
  | _ => none

/-- Decode a counted run of named checkpoint entries. -/
def decCkptEntries : Nat → List Tok → Option (List (String × CkptVal) × List Tok)
  | 0, ts => some ([], ts)
  | k + 1, Tok.tstr s :: ts => do
    let (v, ts1) ← decVal ts
    let (rest, ts2) ← decCkptEntries k ts1
    some ((s, v) :: rest, ts2)
  | _ + 1, _ => none

/-- Modelled from the spec: `torch.load` applied to a blob holding a
checkpoint record (framework code, not under `src/`). -/
def torchLoadCkpt (ts : List Tok) : Option (List (String × CkptVal)) :=
  match ts with
  | Tok.tnat k :: ts1 =>
    (decCkptEntries k ts1).bind (fun p => if p.2 = [] then some p.1 else none)
  | _ => none

/-- The notebook's `load_checkpoint(filepath)`: read the checkpoint record
back, rebuild a `fc_model.Network` from the recorded `input_size`,
`output_size` and `hidden_layers`, and restore the recorded `state_dict` into
it; every failure is surfaced to the caller. -/
def load_checkpoint (blob : List Tok) : Except String Network :=
  match torchLoadCkpt blob with
  | none => .error "torch.load: invalid checkpoint file"
  | some c =>
    match c.lookup "input_size", c.lookup "output_size",
          c.lookup "hidden_layers", c.lookup "state_dict" with
    | some (CkptVal.num i), some (CkptVal.num o),
      some (CkptVal.widths hs), some (CkptVal.sdict sd) =>
      (Network.create i o hs).load_state_dict sd
    | _, _, _, _ => .error "KeyError: malformed checkpoint record"

/-- The gradient of `mean` with respect to its input: each upstream element
receives `1 / numel`. -/
def meanBackwardGrad (y : Tensor) : Tensor :=
  ⟨y.shape, List.replicate y.data.length (1 / (y.data.length : ℚ))⟩

/-- The gradient of the elementwise square through the chain rule: the
incoming gradient is scaled by `2 * x` at each element. -/
def squareBackward (x gout : Tensor) : Tensor :=
  ⟨x.shape, List.zipWith (fun a g => 2 * a * g) x.data gout.data⟩

/-- A tensor with gradient tracking (`requires_grad=True`): its value and its
accumulated gradient, which is empty (`None`) until a backward pass runs. -/
structure GradTensor where
  val : Tensor
  grad : Option Tensor
deriving DecidableEq, Repr

/-- A freshly created tracked tensor, as `torch.randn(2,2,
requires_grad=True)` yields: no gradient accumulated yet. -/
def mkLeaf (t : Tensor) : GradTensor :=
  ⟨t, none⟩

/-- The notebook's backward demonstration: with `y = x**2` and `z = y.mean()`,
`z.backward()` walks the recorded operations backwards and accumulates the
resulting gradient into `x.grad`. -/
def backwardMeanSquare (x : GradTensor) : GradTensor :=
  ⟨x.val, some (squareBackward x.val (meanBackwardGrad x.val.square))⟩

/-- One code cell of a notebook, abstracted to the variables it creates, the
variables it reads, and the variables it mutates in place. -/
structure NbCell where
  creates : List String
  reads : List String
  writesInPlace : List String
deriving DecidableEq, Repr

/-- The cell at a position of a trace (an empty cell past the end). -/
def cellAt (cs : List NbCell) (i : Nat) : NbCell :=
  cs.getD i ⟨[], [], []⟩

/-- The code cells of the tensors notebook, in execution order: the variable
`z` is created by `z = y + x` and then indexed, displayed, `add`-ed,
`add_`-ed, printed, measured, `resize_`-d and `resize`-d by the later cells;
`b` is created from the numpy array `a` and read back by `b.numpy()`. -/
def tensorCells : List NbCell :=
  [⟨[], [], []⟩,
   ⟨["x"], ["x"], []⟩,
   ⟨["y"], ["x", "y"], []⟩,
   ⟨["z"], ["x", "y", "z"], []⟩,
   ⟨[], ["z"], []⟩,
   ⟨[], ["z"], []⟩,
   ⟨[], ["z"], ["z"]⟩,
   ⟨[], ["z"], []⟩,
   ⟨[], ["z"], []⟩,
   ⟨[], ["z"], ["z"]⟩,
   ⟨[], ["z"], []⟩,
   ⟨["a"], ["a"], []⟩,
   ⟨["b"], ["a", "b"], []⟩,
   ⟨[], ["b"], []⟩]

/-- The property the spec asserts of tensor lifetimes: whatever a cell
creates, no later cell reads or mutates it. -/
def singleCellLifetime (cs : List NbCell) : Prop :=
  ∀ i j v, i < j → v ∈ (cellAt cs i).creates →
    v ∉ (cellAt cs j).reads ∧ v ∉ (cellAt cs j).writesInPlace

/-- The kind of a notebook cell. -/
inductive CellKind where
  | markdown : CellKind
  | raw : CellKind
  | code : CellKind
deriving DecidableEq, Repr

/-- The cells of the notebook describing the style-transfer tool and the
DeepTraffic simulator, in order: three markdown cells, the raw conda/pip
setup block, a markdown cell, the raw evaluate.py command, and two markdown
cells — taken verbatim from that notebook's cell list. -/
def applyingCells : List CellKind :=
  [CellKind.markdown, CellKind.markdown, CellKind.markdown, CellKind.raw,
   CellKind.markdown, CellKind.raw, CellKind.markdown, CellKind.markdown]

theorem decNats_enc (l : List Nat) (rest : List Tok) :
    decNats l.length (l.map Tok.tnat ++ rest) = some (l, rest) := by
  induction l with
  | nil => rfl
  | cons x t ih => simp [decNats, ih]

theorem decRats_enc (l : List ℚ) (rest : List Tok) :
    decRats l.length (l.map Tok.trat ++ rest) = some (l, rest) := by
  induction l with
  | nil => rfl
  | cons x t ih => simp [decRats, ih]

theorem decTensor_enc (t : Tensor) (rest : List Tok) :
    decTensor (encTensor t ++ rest) = some (t, rest) := by
  simp [encTensor, encNats, encRats, decTensor, decNats_enc, decRats_enc]

theorem decEntries_enc (sd : List (String × Tensor)) (rest : List Tok) :
    decEntries sd.length ((sd.map encEntry).flatten ++ rest) = some (sd, rest) := by
  induction sd with
  | nil => rfl
  | cons e t ih => simp [decEntries, encEntry, decTensor_enc, ih]

theorem torchLoadSD_enc (sd : List (String × Tensor)) :
    torchLoadSD (torchSaveSD sd) = some sd := by
  have h := decEntries_enc sd []
  simp only [List.append_nil] at h
  simp [torchSaveSD, torchLoadSD, h]

theorem decVal_enc (v : CkptVal) (rest : List Tok) :
    decVal (encVal v ++ rest) = some (v, rest) := by
  cases v with
  | num x => rfl
  | widths l => simp [encVal, encNats, decVal, decNats_enc]
  | sdict sd => simp [encVal, torchSaveSD, decVal, decEntries_enc]

theorem decCkptEntries_enc (c : List (String × CkptVal)) (rest : List Tok) :
    decCkptEntries c.length
      ((c.map (fun e => Tok.tstr e.1 :: encVal e.2)).flatten ++ rest) = some (c, rest) := by
  induction c with
  | nil => rfl
  | cons e t ih => simp [decCkptEntries, decVal_enc, ih]

theorem torchLoadCkpt_enc (c : List (String × CkptVal)) :
    torchLoadCkpt (torchSaveCkpt c) = some c := by
  have h := decCkptEntries_enc c []
  simp only [List.append_nil] at h
  simp [torchSaveCkpt, torchLoadCkpt, h]

/-- The name-and-shape signature that a network with the given input size,
hidden widths and output size records for its hidden layers. -/
def hiddenShapes (idx i : Nat) : List Nat → List (String × List Nat)
  | [] => []
  | h :: t =>
    ("hidden_layers." ++ toString idx ++ ".weight", [h, i]) ::
    ("hidden_layers." ++ toString idx ++ ".bias", [h]) :: hiddenShapes (idx + 1) h t

/-- The full name-and-shape signature determined by an architecture
description. -/
def paramShapes (i o : Nat) (hs : List Nat) : List (String × List Nat) :=
  hiddenShapes 0 i hs ++ [("output.weight", [o, lastSize i hs]), ("output.bias", [o])]

theorem sdShapes_namedParams :
    ∀ (ls : List Linear) (i idx : Nat), chain i ls → (∀ l ∈ ls, l.wf) →
      sdShapes (namedParams idx ls) = hiddenShapes idx i (ls.map Linear.out_features) := by
  intro ls
  induction ls with
  | nil => intro i idx _ _; rfl
  | cons l t ih =>
    intro i idx hc hw
    obtain ⟨hin, hct⟩ := hc
    obtain ⟨hws, _, hbs, _⟩ := hw l (List.mem_cons_self l t)
    have ht := ih l.out_features (idx + 1) hct (fun x hx => hw x (List.mem_cons_of_mem l hx))
    simp [namedParams, sdShapes, hiddenShapes, hws, hbs, hin] at ht ⊢
    exact ht

theorem sdShapes_state_dict (n : Network) (h : n.wf) :
    sdShapes n.state_dict = paramShapes n.input_size n.output_size n.hidden_sizes := by
  obtain ⟨hc, hio, hhw, how⟩ := h
  obtain ⟨hws, _, hbs, _⟩ := how
  have h1 := sdShapes_namedParams n.hidden_layers n.input_size 0 hc hhw
  simp only [sdShapes] at h1
  simp only [Network.state_dict, sdShapes, paramShapes, Network.hidden_sizes,
    List.map_append, List.map_cons, List.map_nil]
  rw [h1, hws, hbs, hio]
  rfl

theorem hiddenShapes_length (idx i : Nat) (hs : List Nat) :
    (hiddenShapes idx i hs).length = 2 * hs.length := by
  induction hs generalizing idx i with
  | nil => rfl
  | cons h t ih => simp [hiddenShapes, ih]; ring

theorem hiddenShapes_inj :
    ∀ (hs hs' : List Nat) (idx i i' : Nat),
      hiddenShapes idx i hs = hiddenShapes idx i' hs' →
      hs = hs' ∧ (hs = [] ∨ i = i') := by
  intro hs
  induction hs with
  | nil =>
    intro hs' idx i i' h
    cases hs' with
    | nil => exact ⟨rfl, Or.inl rfl⟩
    | cons a b => simp [hiddenShapes] at h
  | cons a t ih =>
    intro hs' idx i i' h
    cases hs' with
    | nil => simp [hiddenShapes] at h
    | cons a' t' =>
      simp only [hiddenShapes] at h
      injection h with h1 h2
      injection h2 with _ h4
      have hai : a = a' ∧ i = i' := by
        have := congrArg Prod.snd h1
        simpa using this
      obtain ⟨ha1, hi1⟩ := hai
      subst ha1
      obtain ⟨hts, _⟩ := ih t' (idx + 1) a a h4
      exact ⟨by rw [hts], Or.inr hi1⟩

theorem paramShapes_inj {i o i' o' : Nat} {hs hs' : List Nat}
    (h : paramShapes i o hs = paramShapes i' o' hs') :
    i = i' ∧ o = o' ∧ hs = hs' := by
  have hlen : hs.length = hs'.length := by
    have := congrArg List.length h
    simp [paramShapes, hiddenShapes_length] at this
    omega
  have hsplit := List.append_inj h (by rw [hiddenShapes_length, hiddenShapes_length, hlen])
  obtain ⟨hhid, hout⟩ := hsplit
  injection hout with p1 _
  have hol : o = o' ∧ lastSize i hs = lastSize i' hs' := by
    have := congrArg Prod.snd p1
    simpa using this
  obtain ⟨ho, hlast⟩ := hol
  obtain ⟨hhs, hcase⟩ := hiddenShapes_inj hs hs' 0 i i' hhid
  rcases hcase with hnil | hii
  · subst hnil
    obtain rfl : hs' = [] := hhs.symm
    exact ⟨by simpa [lastSize] using hlast, ho, rfl⟩
  · exact ⟨hii, ho, hhs⟩

theorem namedParams_length (idx : Nat) (ls : List Linear) :
    (namedParams idx ls).length = 2 * ls.length := by
  induction ls generalizing idx with
  | nil => rfl
  | cons l t ih => simp [namedParams, ih]; ring

theorem setHidden_namedParams :
    ∀ (ms ls : List Linear) (idx : Nat) (rest : List (String × Tensor)),
      ls.length = ms.length →
      namedParams idx (setHidden ls (namedParams idx ms ++ rest)) = namedParams idx ms := by
  intro ms
  induction ms with
  | nil =>
    intro ls idx rest hlen
    obtain rfl : ls = [] := List.length_eq_zero.mp hlen
    rfl
  | cons m mt ih =>
    intro ls idx rest hlen
    cases ls with
    | nil => simp at hlen
    | cons l lt =>
      simp only [List.length_cons, Nat.add_right_cancel_iff] at hlen
      simp only [namedParams, List.cons_append, setHidden, List.append_eq]
      rw [ih lt (idx + 1) rest hlen]

theorem setHidden_features :
    ∀ (ms ls : List Linear) (idx : Nat) (rest : List (String × Tensor)),
      ls.length = ms.length →
      (setHidden ls (namedParams idx ms ++ rest)).map
          (fun l => (l.in_features, l.out_features)) =
        ls.map (fun l => (l.in_features, l.out_features)) := by
  intro ms
  induction ms with
  | nil =>
    intro ls idx rest hlen
    obtain rfl : ls = [] := List.length_eq_zero.mp hlen
    rfl
  | cons m mt ih =>
    intro ls idx rest hlen
    cases ls with
    | nil => simp at hlen
    | cons l lt =>
      simp only [List.length_cons, Nat.add_right_cancel_iff] at hlen
      simp only [namedParams, List.cons_append, setHidden, List.map_cons, List.append_eq]
      rw [ih lt (idx + 1) rest hlen]

theorem state_dict_drop (n : Network) {k : Nat} (hk : k = n.hidden_layers.length) :
    n.state_dict.drop (2 * k) =
      [("output.weight", n.output.weight), ("output.bias", n.output.bias)] := by
  subst hk
  simp only [Network.state_dict]
  rw [← namedParams_length 0 n.hidden_layers, List.drop_left]

theorem setParams_state_dict (n m : Network)
    (hlen : n.hidden_layers.length = m.hidden_layers.length) :
    (n.setParams m.state_dict).state_dict = m.state_dict := by
  have hdrop := state_dict_drop m hlen
  simp only [Network.state_dict] at hdrop
  simp only [Network.setParams, Network.state_dict, hdrop]
  rw [setHidden_namedParams m.hidden_layers n.hidden_layers 0 _ hlen]

theorem setParams_dims (n m : Network)
    (hlen : n.hidden_layers.length = m.hidden_layers.length) :
    (n.setParams m.state_dict).input_size = n.input_size ∧
    (n.setParams m.state_dict).hidden_sizes = n.hidden_sizes ∧
    (n.setParams m.state_dict).output_size = n.output_size := by
  have hdrop := state_dict_drop m hlen
  have hfeat := setHidden_features m.hidden_layers n.hidden_layers 0
    [("output.weight", m.output.weight), ("output.bias", m.output.bias)] hlen
  have hout : (n.setParams m.state_dict).output.in_features = n.output.in_features ∧
      (n.setParams m.state_dict).output.out_features = n.output.out_features := by
    simp [Network.setParams, hdrop]
  have hhid : (n.setParams m.state_dict).hidden_layers.map
      (fun l => (l.in_features, l.out_features)) =
      n.hidden_layers.map (fun l => (l.in_features, l.out_features)) := by
    simp only [Network.setParams, Network.state_dict]
    exact hfeat
  refine ⟨?_, ?_, hout.2⟩
  · simp only [Network.input_size]
    cases hl : n.hidden_layers with
    | nil =>
      have h0 : (n.setParams m.state_dict).hidden_layers = [] := by
        have h1 := hhid
        rw [hl] at h1
        simpa using h1
      rw [h0, hout.1]
    | cons l lt =>
      rw [hl] at hhid
      cases hl2 : (n.setParams m.state_dict).hidden_layers with
      | nil => rw [hl2] at hhid; simp at hhid
      | cons l2 lt2 =>
        rw [hl2] at hhid
        simp only [List.map_cons, List.cons.injEq, Prod.mk.injEq] at hhid
        exact hhid.1.1
  · simp only [Network.hidden_sizes]
    have h2 := congrArg (List.map Prod.snd) hhid
    simpa [Function.comp] using h2

theorem mkHidden_out (i : Nat) (hs : List Nat) :
    (mkHidden i hs).map Linear.out_features = hs := by
  induction hs generalizing i with
  | nil => rfl
  | cons h t ih => simp [mkHidden, mkLinear, ih]

theorem mkHidden_length (i : Nat) (hs : List Nat) :
    (mkHidden i hs).length = hs.length := by
  have := congrArg List.length (mkHidden_out i hs)
  simpa using this

theorem mkLinear_wf (i o : Nat) : (mkLinear i o).wf := by
  simp [mkLinear, Linear.wf, zerosTensor]

theorem chain_mkHidden (i : Nat) (hs : List Nat) : chain i (mkHidden i hs) := by
  induction hs generalizing i with
  | nil => trivial
  | cons h t ih => exact ⟨rfl, ih h⟩

theorem create_input (i o : Nat) (hs : List Nat) :
    (Network.create i o hs).input_size = i := by
  cases hs with
  | nil => simp [Network.create, Network.input_size, mkHidden, mkLinear, lastSize]
  | cons h t => simp [Network.create, Network.input_size, mkHidden, mkLinear]

theorem create_hidden (i o : Nat) (hs : List Nat) :
    (Network.create i o hs).hidden_sizes = hs := by
  simp [Network.create, Network.hidden_sizes, mkHidden_out]

theorem create_output (i o : Nat) (hs : List Nat) :
    (Network.create i o hs).output_size = o := by
  simp [Network.create, Network.output_size, mkLinear]

theorem create_wf (i o : Nat) (hs : List Nat) : (Network.create i o hs).wf := by
  refine ⟨?_, ?_, ?_, ?_⟩
  · rw [show (Network.create i o hs).hidden_layers = mkHidden i hs from rfl, create_input]
    exact chain_mkHidden i hs
  · rw [create_input, create_hidden]
    simp [Network.create, mkLinear]
  · intro l hl
    simp only [Network.create] at hl
    induction hs generalizing i with
    | nil => simp [mkHidden] at hl
    | cons h t ih =>
      simp only [mkHidden, List.mem_cons] at hl
      rcases hl with rfl | hl
      · exact mkLinear_wf i h
      · exact ih h hl
  · exact mkLinear_wf (lastSize i hs) o

theorem create_state_dict_shapes (i o : Nat) (hs : List Nat) :
    sdShapes (Network.create i o hs).state_dict = paramShapes i o hs := by
  rw [sdShapes_state_dict _ (create_wf i o hs), create_input, create_hidden, create_output]

/-- C1. For every fully-connected network and every parameter mapping recorded
at save time from such a network, restoring the mapping via `load_state_dict`
succeeds exactly when the restoring network's declared input size, hidden
widths and output size match the saving network's, i.e. match the shapes
recorded in the mapping; on any mismatch the shape-mismatch `RuntimeError` is
returned to the caller with no recovery attempted. -/
theorem load_state_dict_ok_iff_dims (n m : Network) (hn : n.wf) (hm : m.wf) :
    ((∃ m', n.load_state_dict m.state_dict = Except.ok m') ↔ n.dims = m.dims) ∧
    (n.dims ≠ m.dims → n.load_state_dict m.state_dict =
      Except.error
        "RuntimeError: Error(s) in loading state_dict for Network: size mismatch") := by
  have key : sdShapes m.state_dict = sdShapes n.state_dict ↔ n.dims = m.dims := by
    rw [sdShapes_state_dict n hn, sdShapes_state_dict m hm]
    constructor
    · intro h
      obtain ⟨hi, ho, hh⟩ := paramShapes_inj h.symm
      simp [Network.dims, hi, ho, hh]
    · intro h
      simp only [Network.dims, Prod.mk.injEq] at h
      rw [h.1, h.2.1, h.2.2]
  constructor
  · constructor
    · rintro ⟨m', h⟩
      by_cases hc : sdShapes m.state_dict = sdShapes n.state_dict
      · exact key.mp hc
      · simp [Network.load_state_dict, hc] at h
    · intro hd
      refine ⟨n.setParams m.state_dict, ?_⟩
      simp [Network.load_state_dict, key.mpr.mt, key.mpr hd]
  · intro hd
    have hc : ¬ sdShapes m.state_dict = sdShapes n.state_dict := fun h => hd (key.mp h)
    simp [Network.load_state_dict, hc]

/-- C1 witness: a network of input size 2, hidden widths [3], output size 1
accepts its own saved mapping; one with hidden width 4 instead is rejected
with the shape-mismatch error. -/
theorem load_state_dict_ok_iff_dims_witness :
    (Network.create 2 1 [3]).wf ∧ (Network.create 2 1 [4]).wf ∧
    ((∃ m', (Network.create 2 1 [3]).load_state_dict
        (Network.create 2 1 [4]).state_dict = Except.ok m') ↔
      (Network.create 2 1 [3]).dims = (Network.create 2 1 [4]).dims) := by
  refine ⟨by decide, by decide, ?_⟩
  exact (load_state_dict_ok_iff_dims (Network.create 2 1 [3]) (Network.create 2 1 [4])
    (by decide) (by decide)).1

/-- C2. For every trained (well-formed) network, building the checkpoint
record from the network's actual dimensions and `state_dict`, saving it with
`torch.save` and passing the file to `load_checkpoint` succeeds and returns a
network whose layer dimensions equal the recorded `input_size`,
`hidden_layers` and `output_size` and whose parameter tensors equal those in
the saved `state_dict`. -/
theorem load_checkpoint_roundtrip (n : Network) (hn : n.wf) :
    load_checkpoint (torchSaveCkpt (mkCheckpoint n)) =
      Except.ok ((Network.create n.input_size n.output_size
        (n.hidden_layers.map Linear.out_features)).setParams n.state_dict) ∧
    ∀ m, load_checkpoint (torchSaveCkpt (mkCheckpoint n)) = Except.ok m →
      m.input_size = n.input_size ∧ m.hidden_sizes = n.hidden_sizes ∧
      m.output_size = n.output_size ∧ m.state_dict = n.state_dict := by
  have hload := torchLoadCkpt_enc (mkCheckpoint n)
  have l1 : (mkCheckpoint n).lookup "input_size" = some (CkptVal.num n.input_size) := rfl
  have l2 : (mkCheckpoint n).lookup "output_size" = some (CkptVal.num n.output_size) := rfl
  have l3 : (mkCheckpoint n).lookup "hidden_layers" =
      some (CkptVal.widths (n.hidden_layers.map Linear.out_features)) := rfl
  have l4 : (mkCheckpoint n).lookup "state_dict" = some (CkptVal.sdict n.state_dict) := rfl
  have hcond : sdShapes n.state_dict = sdShapes (Network.create n.input_size n.output_size
      (n.hidden_layers.map Linear.out_features)).state_dict := by
    rw [create_state_dict_shapes]
    exact sdShapes_state_dict n hn
  have hlen : (Network.create n.input_size n.output_size
      (n.hidden_layers.map Linear.out_features)).hidden_layers.length =
      n.hidden_layers.length := by
    simp [Network.create, mkHidden_length]
  have hok : load_checkpoint (torchSaveCkpt (mkCheckpoint n)) =
      Except.ok ((Network.create n.input_size n.output_size
        (n.hidden_layers.map Linear.out_features)).setParams n.state_dict) := by
    simp only [load_checkpoint, hload, l1, l2, l3, l4, Network.load_state_dict]
    rw [if_pos hcond]
  refine ⟨hok, ?_⟩
  intro m hm
  rw [hok] at hm
  obtain rfl : m = (Network.create n.input_size n.output_size
      (n.hidden_layers.map Linear.out_features)).setParams n.state_dict := by
    injection hm.symm
  obtain ⟨d1, d2, d3⟩ := setParams_dims _ n hlen
  refine ⟨?_, ?_, ?_, setParams_state_dict _ n hlen⟩
  · rw [d1, create_input]
  · rw [d2, create_hidden]
    rfl
  · rw [d3, create_output]

/-- C2 witness: the round trip at the concrete network of input size 2,
hidden widths [3], output size 1. -/
theorem load_checkpoint_roundtrip_witness :
    (Network.create 2 1 [3]).wf ∧
    load_checkpoint (torchSaveCkpt (mkCheckpoint (Network.create 2 1 [3]))) =
      Except.ok ((Network.create (Network.create 2 1 [3]).input_size
        (Network.create 2 1 [3]).output_size
        ((Network.create 2 1 [3]).hidden_layers.map Linear.out_features)).setParams
        (Network.create 2 1 [3]).state_dict) :=
  ⟨by decide, (load_checkpoint_roundtrip (Network.create 2 1 [3]) (by decide)).1⟩

/-- C3. For every parameter mapping, saving it with `torch.save` and reading
it back with `torch.load` returns exactly the saved mapping: the same keys in
the same order and, for each key, a tensor whose shape and values are
identical to the saved tensor's (values are exact in this model, so equality
is the bit-for-bit statement). -/
theorem torch_save_load_roundtrip (sd : List (String × Tensor)) :
    torchLoadSD (torchSaveSD sd) = some sd ∧
    ∀ sd', torchLoadSD (torchSaveSD sd) = some sd' →
      sd'.map Prod.fst = sd.map Prod.fst ∧
      ∀ k, sd'.lookup k = sd.lookup k := by
  refine ⟨torchLoadSD_enc sd, ?_⟩
  intro sd' h
  rw [torchLoadSD_enc sd] at h
  obtain rfl : sd' = sd := by injection h.symm
  exact ⟨rfl, fun _ => rfl⟩

/-- C4. The checkpoint record written to `checkpoint.pth` is a mapping with
exactly four entries — `input_size`, `output_size`, `hidden_layers` and
`state_dict` — where `hidden_layers` carries one width per hidden layer in
layer order, each equal to that layer's `out_features`, and `state_dict`
carries the mapping from parameter-tensor names to their values. -/
theorem checkpoint_record_contents (n : Network) :
    (mkCheckpoint n).length = 4 ∧
    (mkCheckpoint n).map Prod.fst =
      ["input_size", "output_size", "hidden_layers", "state_dict"] ∧
    (mkCheckpoint n).lookup "input_size" = some (CkptVal.num n.input_size) ∧
    (mkCheckpoint n).lookup "output_size" = some (CkptVal.num n.output_size) ∧
    (mkCheckpoint n).lookup "hidden_layers" =
      some (CkptVal.widths (n.hidden_layers.map Linear.out_features)) ∧
    (mkCheckpoint n).lookup "state_dict" = some (CkptVal.sdict n.state_dict) ∧
    (n.hidden_layers.map Linear.out_features).length = n.hidden_layers.length ∧
    ∀ k (hk : k < n.hidden_layers.length),
      (n.hidden_layers.map Linear.out_features).get ⟨k, by simpa using hk⟩ =
        (n.hidden_layers.get ⟨k, hk⟩).out_features := by
  refine ⟨rfl, rfl, rfl, rfl, rfl, rfl, by simp, ?_⟩
  intro k hk
  simp

/-- C5. For every environment binding `z` and every scalar `c`, the cell
`z.add(c)` displays a fresh tensor whose every element is the corresponding
element of `z` plus `c` while the binding of `z` is left unchanged, whereas
`z.add_(c)` rebinds `z` so that afterwards every element of `z` has been
incremented by `c`. -/
theorem add_copies_add_inplace_mutates (e : Env) (c : ℚ) :
    (runAdd e c).2 = e ∧
    (runAdd e c).1.shape = e.z.shape ∧
    (runAdd e c).1.data = e.z.data.map (fun v => v + c) ∧
    (runAddInPlace e c).2.z.shape = e.z.shape ∧
    (runAddInPlace e c).2.z.data = e.z.data.map (fun v => v + c) := by
  exact ⟨rfl, rfl, rfl, rfl, rfl⟩

theorem zipWith_replicate_scale :
    ∀ (l : List ℚ) (k : Nat) (c : ℚ), l.length ≤ k →
      List.zipWith (fun a g => 2 * a * g) l (List.replicate k c) =
        l.map (fun a => 2 * a * c) := by
  intro l
  induction l with
  | nil => intro k c _; simp
  | cons x t ih =>
    intro k c hk
    cases k with
    | zero => simp at hk
    | succ k =>
      simp only [List.replicate_succ, List.zipWith_cons_cons, List.map_cons]
      rw [ih k c (by simpa using hk)]

/-- C6. For every 2-by-2 tensor `x` created with gradient tracking, the
gradient slot is empty (`None`) before any backward pass, and after
`z = (x**2).mean()` and `z.backward()` the accumulated gradient equals `x/2`
elementwise. -/
theorem backward_mean_square_grad (t : Tensor) (hs : t.shape = [2, 2]) (hw : t.wf) :
    (mkLeaf t).grad = none ∧
    ∃ g, (backwardMeanSquare (mkLeaf t)).grad = some g ∧ g.shape = t.shape ∧
      g.data = t.data.map (fun v => v / 2) := by
  have hlen : t.data.length = 4 := by rw [hw, hs]; rfl
  refine ⟨rfl, ⟨_, rfl, rfl, ?_⟩⟩
  simp only [backwardMeanSquare, mkLeaf, squareBackward, meanBackwardGrad, Tensor.square,
    List.length_map]
  rw [hlen]
  rw [zipWith_replicate_scale t.data 4 _ (by rw [hlen])]
  have hc : (1 : ℚ) / ((4 : ℕ) : ℚ) = 1 / 4 := by norm_num
  rw [hc]
  have hmap : ∀ (l : List ℚ),
      l.map (fun a => 2 * a * (1 / 4)) = l.map (fun a => a / 2) := by
    intro l
    induction l with
    | nil => rfl
    | cons x t2 ih =>
      simp only [List.map_cons, ih, List.cons.injEq, and_true]
      ring
  exact hmap t.data

/-- C6 witness: the concrete tensor `[[1, 2], [3, 4]]` satisfies both
hypotheses, and its accumulated gradient is `[[1/2, 1], [3/2, 2]]`. -/
theorem backward_mean_square_grad_witness :
    (⟨[2, 2], [1, 2, 3, 4]⟩ : Tensor).shape = [2, 2] ∧
    (⟨[2, 2], [1, 2, 3, 4]⟩ : Tensor).wf ∧
    ((mkLeaf ⟨[2, 2], [1, 2, 3, 4]⟩).grad = none ∧
      ∃ g, (backwardMeanSquare (mkLeaf ⟨[2, 2], [1, 2, 3, 4]⟩)).grad = some g ∧
        g.shape = (⟨[2, 2], [1, 2, 3, 4]⟩ : Tensor).shape ∧
        g.data = (⟨[2, 2], [1, 2, 3, 4]⟩ : Tensor).data.map (fun v => v / 2)) :=
  ⟨rfl, by decide, backward_mean_square_grad ⟨[2, 2], [1, 2, 3, 4]⟩ rfl (by decide)⟩

theorem resize_len (t : Tensor) (sh : List Nat) :
    (t.resize_ sh).data.length = sh.prod := by
  simp [Tensor.resize_]
  omega

/-- C7. For a fetched image batch of `b` images of 784 elements each
(shape `[b, 1, 28, 28]`), the training loop's reshape
`images.resize_(images.size()[0], 784)` preserves every element for every
batch size `b`; the single-step demonstration's `images.resize_(64, 784)`
preserves every element exactly when `b = 64` and otherwise changes the
element count (dropping or fabricating elements). -/
theorem resize_flatten_batches (t : Tensor) (b : Nat) (hw : t.wf)
    (hs : t.shape = [b, 1, 28, 28]) :
    (t.resize_ [b, 784]).data = t.data ∧
    (b = 64 → (t.resize_ [64, 784]).data = t.data) ∧
    (b ≠ 64 → (t.resize_ [64, 784]).data.length ≠ t.data.length) := by
  have hlen : t.data.length = b * 784 := by
    rw [hw, hs]
    simp [List.prod_cons]
  have hp : ([b, 784] : List Nat).prod = b * 784 := by
    simp [List.prod_cons]
  have h1 : (t.resize_ [b, 784]).data = t.data := by
    simp only [Tensor.resize_]
    rw [hp, ← hlen]
    simp
  refine ⟨h1, ?_, ?_⟩
  · intro hb
    subst hb
    exact h1
  · intro hb
    rw [resize_len, hlen]
    have h64 : ([64, 784] : List Nat).prod = 50176 := by
      norm_num [List.prod_cons]
    rw [h64]
    omega

/-- C7 witness: a well-formed batch of 2 images; the loop reshape preserves
the data and the hard-coded reshape changes the element count. -/
theorem resize_flatten_batches_witness :
    (zerosTensor [2, 1, 28, 28]).wf ∧
    ((zerosTensor [2, 1, 28, 28]).resize_ [2, 784]).data =
      (zerosTensor [2, 1, 28, 28]).data ∧
    ((2 : Nat) ≠ 64 →
      ((zerosTensor [2, 1, 28, 28]).resize_ [64, 784]).data.length ≠
        (zerosTensor [2, 1, 28, 28]).data.length) := by
  have hw : (zerosTensor [2, 1, 28, 28]).wf := by
    simp only [Tensor.wf, zerosTensor, List.length_replicate]
  have h := resize_flatten_batches (zerosTensor [2, 1, 28, 28]) 2 hw rfl
  exact ⟨hw, h.1, h.2.2⟩

/-- C8 counterexample: the tensors notebook itself violates the single-cell
lifetime property — the tensor `z` is created by the cell `z = y + x` and read
(and mutated) by later cells. -/
theorem single_cell_lifetime_refuted : ¬ singleCellLifetime tensorCells := by
  intro h
  have h2 := h 3 5 "z" (by norm_num) (by decide)
  exact h2.1 (by decide)

/-- C8 amended: tensors persist for the kernel session, not a single cell —
`z` is created by one cell, read by later cells and mutated in place by the
later `z.add_(1)` and `z.resize_(2,3)` cells, and `b` is created in one cell
and read by the next. -/
theorem tensors_persist_across_cells :
    "z" ∈ (cellAt tensorCells 3).creates ∧
    "z" ∈ (cellAt tensorCells 5).reads ∧
    "z" ∈ (cellAt tensorCells 6).writesInPlace ∧
    "z" ∈ (cellAt tensorCells 9).writesInPlace ∧
    "b" ∈ (cellAt tensorCells 12).creates ∧
    "b" ∈ (cellAt tensorCells 13).reads := by
  decide

/-- C9. Every cell of the notebook describing the style-transfer tool and the
DeepTraffic simulator is markdown prose or a raw setup/run block; none is an
executable code cell, so nothing in that notebook computes any part of those
two external projects. -/
theorem applying_notebook_no_code :
    ∀ c ∈ applyingCells, c = CellKind.markdown ∨ c = CellKind.raw := by
  decide

/-- C9 witness: the raw conda setup cell is one of the notebook's cells and is
indeed markdown-or-raw. -/
theorem applying_notebook_no_code_witness :
    CellKind.raw ∈ applyingCells ∧
    (CellKind.raw = CellKind.markdown ∨ CellKind.raw = CellKind.raw) :=
  ⟨by decide, applying_notebook_no_code CellKind.raw (by decide)⟩
